import Mathlib

/-!
# Verification of the fastdigest t-digest specification

Shallow embedding of the fastdigest library (a t-digest over real-valued
observations).  The repository ships its public API surface (a type-stub file
and an executed API-reference notebook); the Rust core itself is not part of
the sources, so the algorithmic components are modelled from the
specification, as indicated in the doc comments below.  Real numbers are
embedded as rationals: all arithmetic in the claims under study is exact.
-/

namespace Fastdigest

/-- A centroid: a mean `m` and a weight `c` (spec §3, "Centroid.  A pair
(m, c) where m is the mean of the cluster and c is the weight"). -/
structure Centroid where
  m : ℚ
  c : ℚ
deriving DecidableEq, Repr

/-- Digest state (spec §3, "Digest.  A tuple consisting of: centroids,
total_weight, min_value, max_value, sum_value, max_centroids").
`max_centroids = none` is the "unbounded" budget. -/
structure TDigest where
  centroids : List Centroid
  min_value : ℚ
  max_value : ℚ
  sum_value : ℚ
  total_weight : ℚ
  max_centroids : Option ℕ
deriving DecidableEq, Repr

/-- Error taxonomy (spec §7). -/
inductive Err where
  | DomainError
  | EmptyDigest
  | TypeMismatch
  | MalformedInput
deriving DecidableEq, Repr

/-- Comparison of centroids by mean, used for sorting (spec §3 invariant 1:
"centroids is sorted by m"). -/
def centroidLE (a b : Centroid) : Bool :=
  a.m ≤ b.m

/-- Stable sort of centroids by mean (spec §4.3 step 1: "Sort stably by m
ascending.  Ties keep their input order."). -/
def sortCentroids (cs : List Centroid) : List Centroid :=
  cs.mergeSort centroidLE

/-- The empty digest (spec §3, "A digest is created empty
(total_weight = 0, empty centroid list)"). -/
def emptyDigest (mc : Option ℕ) : TDigest :=
  { centroids := [], min_value := 0, max_value := 0, sum_value := 0,
    total_weight := 0, max_centroids := mc }

/-! ## Query engine (spec §4.4)

Monotone piecewise-linear interpolation over the centroid sequence plus the
exact min/max endpoints. -/

/-- Linear interpolation of the point `t` on the segment from `(x1, y1)` to
`(x2, y2)`, guarded against a collapsed segment (spec §4.4: "Singleton
centroids at the endpoints collapse the interpolation interval to a point;
do not divide by zero"). -/
def qInterp (x1 y1 x2 y2 t : ℚ) : ℚ :=
  if x2 = x1 then y1 else y1 + (t - x1) / (x2 - x1) * (y2 - y1)

/-- Midpoint list: pairs `(midpoint_i, m_i)` where
`midpoint_i = Σ_{j<i} c_j + c_i/2` (spec §4.4, "Cumulative position of a
centroid").  `acc` is the cumulative weight of the centroids already seen. -/
def midList (acc : ℚ) : List Centroid → List (ℚ × ℚ)
  | [] => []
  | c :: rest => (acc + c.c / 2, c.m) :: midList (acc + c.c) rest

/-- Scan for the adjacent midpoints bracketing the target weight `t`,
interpolating the mean there; past the last midpoint, interpolate between
`(midpoint_last, m_last)` and `(W, maxv)` (spec §4.4, quantile bullet 4). -/
def quantileScan (W maxv t : ℚ) (prev : ℚ × ℚ) : List (ℚ × ℚ) → ℚ
  | [] => qInterp prev.1 prev.2 W maxv t
  | p :: rest =>
    if t ≤ p.1 then qInterp prev.1 prev.2 p.1 p.2 t
    else quantileScan W maxv t p rest

/-- Modelled from the spec: the quantile interpolation of the Rust core is
not in src/; this follows §4.4 "quantile(q)" — target `q·W`, bracketing
midpoints, linear interpolation, with the segments `(min_value, 0)` to the
first midpoint and the last midpoint to `(max_value, W)` at the ends. -/
def quantileVal (d : TDigest) (q : ℚ) : ℚ :=
  let t := q * d.total_weight
  match midList 0 d.centroids with
  | [] => d.min_value
  | p :: rest =>
    if t ≤ p.1 then qInterp 0 d.min_value p.1 p.2 t
    else quantileScan d.total_weight d.max_value t p rest

/-- Modelled from the spec: `quantile(q)` (§4.4) — `DomainError` for
`q ∉ [0,1]`, `EmptyDigest` on an empty digest, exact `min_value` at `q = 0`,
exact `max_value` at `q = 1`, interpolation otherwise. -/
def quantile (d : TDigest) (q : ℚ) : Except Err ℚ :=
  if q < 0 ∨ 1 < q then .error .DomainError
  else if d.total_weight = 0 then .error .EmptyDigest
  else if q = 0 then .ok d.min_value
  else if q = 1 then .ok d.max_value
  else .ok (quantileVal d q)

/-- Scan for the adjacent centroid means bracketing `x`, interpolating the
cumulative weight there; past the last mean, interpolate between
`(m_last, midpoint_last)` and `(maxv, W)` (spec §4.4, "cdf(x)"). -/
def cdfScan (W maxv x : ℚ) (prev : ℚ × ℚ) : List (ℚ × ℚ) → ℚ
  | [] => qInterp prev.2 prev.1 maxv W x
  | p :: rest =>
    if x ≤ p.2 then qInterp prev.2 prev.1 p.2 p.1 x
    else cdfScan W maxv x p rest

/-- Modelled from the spec: the cdf interpolation of the Rust core is not in
src/; this follows §4.4 "cdf(x)" — 0 at or below `min_value`, 1 at or above
`max_value`, otherwise the interpolated cumulative weight divided by `W`. -/
def cdfVal (d : TDigest) (x : ℚ) : ℚ :=
  if x ≤ d.min_value then 0
  else if d.max_value ≤ x then 1
  else
    match midList 0 d.centroids with
    | [] => 0
    | p :: rest =>
      (if x ≤ p.2 then qInterp d.min_value 0 p.2 p.1 x
       else cdfScan d.total_weight d.max_value x p rest) / d.total_weight

/-- Modelled from the spec: `cdf(x)` (§4.4) — `EmptyDigest` on an empty
digest, interpolated cumulative probability otherwise. -/
def cdf (d : TDigest) (x : ℚ) : Except Err ℚ :=
  if d.total_weight = 0 then .error .EmptyDigest else .ok (cdfVal d x)

/-- `mean()` = `sum_value / total_weight`, exact; `EmptyDigest` when
`total_weight = 0` (spec §4.4). -/
def mean (d : TDigest) : Except Err ℚ :=
  if d.total_weight = 0 then .error .EmptyDigest
  else .ok (d.sum_value / d.total_weight)

/-- `min()`: the exact minimum of all ingested values; `EmptyDigest` when
empty (spec §6, §8 scenario 5). -/
def TDigest.min (d : TDigest) : Except Err ℚ :=
  if d.total_weight = 0 then .error .EmptyDigest else .ok d.min_value

/-- `max()`: the exact maximum of all ingested values; `EmptyDigest` when
empty (spec §6, §8 scenario 5). -/
def TDigest.max (d : TDigest) : Except Err ℚ :=
  if d.total_weight = 0 then .error .EmptyDigest else .ok d.max_value

/-- `median()` = `quantile(0.5)` (spec §4.4, stub docstring). -/
def median (d : TDigest) : Except Err ℚ :=
  quantile d (1/2)

/-- `iqr()` = `quantile(0.75) − quantile(0.25)` (spec §4.4; the stub's own
docstring).  The executed notebook calls it with no arguments. -/
def iqr (d : TDigest) : Except Err ℚ := do
  let a ← quantile d (3/4)
  let b ← quantile d (1/4)
  pure (a - b)

/-- `probability(x1, x2)` = `cdf(x2) − cdf(x1)` (spec §4.4; the stub
docstring: "Equivalent to cdf(x2) - cdf(x1)"). -/
def probability (d : TDigest) (x1 x2 : ℚ) : Except Err ℚ := do
  let c2 ← cdf d x2
  let c1 ← cdf d x1
  pure (c2 - c1)

/-! ## Merging engine (spec §4.3)

The Rust merging engine is not in src/.  Two spec-modelled components stand
in for it: the one-pass scan below (§4.3, used to settle the concrete
scenario claim), and the budget-capped compression pass further down (used
by the facade operations, realising invariant 4 of §3). -/

/-- Absorb a source centroid into the pending cluster:
`c_new = c + c'`, `m_new = m + (c'/c_new)·(m' − m)` (spec §4.3 step 4). -/
def absorb (p n : Centroid) : Centroid :=
  let cNew := p.c + n.c
  { m := p.m + n.c / cNew * (n.m - p.m), c := cNew }

/-- The left-to-right scan of §4.3 step 4: `out` is the reversed list of
emitted clusters, `emitted` their total weight, `pending` the pending
cluster.  The size-bound predicate `ok` takes the normalized positions
`q_lo` and `q_hi`. -/
def scanGo (ok : ℚ → ℚ → Bool) (W : ℚ) (out : List Centroid) (emitted : ℚ)
    (pending : Centroid) : List Centroid → List Centroid
  | [] => (pending :: out).reverse
  | n :: rest =>
    if ok (emitted / W) ((emitted + pending.c + n.c) / W) then
      scanGo ok W out emitted (absorb pending n) rest
    else
      scanGo ok W (pending :: out) (emitted + pending.c) n rest

/-- One scan pass over a sorted buffer (spec §4.3 steps 3–5); `emitted0` is
the weight already emitted before the buffer (protected endpoint). -/
def scanClusters (ok : ℚ → ℚ → Bool) (W emitted0 : ℚ) :
    List Centroid → List Centroid
  | [] => []
  | c :: rest => scanGo ok W [] emitted0 c rest

/-- Endpoint protection, minimum side (§4.3: "If the smallest mean in the
input equals min_value and corresponds to a singleton (c = 1), it must
remain a singleton centroid in the output"): split a protected head off the
sorted buffer. -/
def splitHead (minv : ℚ) : List Centroid → List Centroid × List Centroid
  | [] => ([], [])
  | c :: rest => if c.c = 1 ∧ c.m = minv then ([c], rest) else ([], c :: rest)

/-- Endpoint protection, maximum side (§4.3): split a protected last
centroid off the sorted buffer. -/
def splitLast (maxv : ℚ) (cs : List Centroid) :
    List Centroid × List Centroid :=
  match cs.getLast? with
  | some c => if c.c = 1 ∧ c.m = maxv then (cs.dropLast, [c]) else (cs, [])
  | none => (cs, [])

/-- Modelled from the spec: the merging engine (§4.3) of the Rust core is
not in src/.  One pass over the sorted buffer with the endpoint protection
of §4.3: a smallest-mean singleton carrying `min_value` and a largest-mean
singleton carrying `max_value` are kept out of the scan and preserved as
singletons; the interior is scanned under the size bound `ok`. -/
def mergeEngine (ok : ℚ → ℚ → Bool) (minv maxv W : ℚ)
    (cs : List Centroid) : List Centroid :=
  let s1 := splitHead minv cs
  let s2 := splitLast maxv s1.2
  s1.1 ++ scanClusters ok W ((s1.1.map (·.c)).sum) s2.1 ++ s2.2

/-- The size bound that permits every combination.  Modelled from the spec:
the scale function of the Rust core is not in src/ (§4.2 leaves it to the
implementer); on the concrete scenario of §8 the recorded notebook output
shows every interior absorption being permitted, which this predicate
realises. -/
def alwaysCombine : ℚ → ℚ → Bool := fun _ _ => true

/-- Modelled from the spec: `from_values` (§6, stub `TDigest.from_values`)
via the §4.3 engine — exact aggregates plus one merging pass over the
sorted singletons, under the size bound `ok`. -/
def fromValuesWith (ok : ℚ → ℚ → Bool) (vs : List ℚ) (mc : Option ℕ) :
    TDigest :=
  match vs with
  | [] => emptyDigest mc
  | v :: rest =>
    let minv := rest.foldl Min.min v
    let maxv := rest.foldl Max.max v
    let W : ℚ := ((v :: rest).length : ℚ)
    let sorted := sortCentroids ((v :: rest).map fun x => ⟨x, 1⟩)
    { centroids := mergeEngine ok minv maxv W sorted,
      min_value := minv, max_value := maxv,
      sum_value := (v :: rest).sum,
      total_weight := W,
      max_centroids := mc }

/-! ## Budget-capped compression pass

Modelled from the spec: the scale-function size bound of the Rust core is
not in src/; what the facade operations need from the engine is invariant 4
of §3 ("when max_centroids is an integer k, len(centroids) ≤ k after any
mutating operation").  This pass merges adjacent centroids by weighted mean
(glossary, "Compression") over a contiguous partition into at most `b`
groups, in place of the implementer-chosen scale-function bound. -/

/-- Partition a list into at most `b` contiguous nonempty groups. -/
def chunkInto : ℕ → List Centroid → List (List Centroid)
  | 0, _ => []
  | _, [] => []
  | 1, cs => [cs]
  | b + 2, cs =>
    let k := Max.max 1 (cs.length / (b + 2))
    cs.take k :: chunkInto (b + 1) (cs.drop k)

/-- Merge one group of adjacent centroids into its weighted mean, by the
running absorption formula of §4.3. -/
def mergeChunk : List Centroid → Centroid
  | [] => { m := 0, c := 0 }
  | c :: rest => rest.foldl absorb c

/-- Modelled from the spec: one compression pass under a budget.  With a
bounded budget the centroid count never exceeds it (invariant 4 of §3);
when unbounded no merging occurs (§4.2: the size-bound predicate is
treated as always false). -/
def compressPass (mc : Option ℕ) (cs : List Centroid) : List Centroid :=
  match mc with
  | none => cs
  | some b => if cs.length ≤ b then cs else (chunkInto b cs).map mergeChunk

/-! ## Facade operations (spec §4.5) -/

/-- `n_values`: "Sum of all centroid weights, rounded to the nearest
integer" (stub docstring for `n_values`). -/
def nValues (d : TDigest) : ℤ :=
  round d.total_weight

/-- Modelled from the spec: `compress(k)` (§4.5) — "set max_centroids =
max(k, min(total_weight, 3)) temporarily and run a compression pass; then
restore the facade's configured max_centroids".  The temporary budget only
drives the pass; the configured `max_centroids` field is left untouched,
which is the functional reading of set-then-restore. -/
def compress (d : TDigest) (k : ℤ) : TDigest :=
  let b : ℤ := Max.max k (Min.min (nValues d) 3)
  { d with centroids := compressPass (some b.toNat) d.centroids }

/-- An ingestion value: a finite number or a NaN (spec §7: "Numeric edge
cases (NaN inputs) are rejected as DomainError on ingestion").  Rationals
model the finite doubles; NaN is the separate tag. -/
inductive Value where
  | nan
  | fin (x : ℚ)
deriving DecidableEq, Repr

/-- Whether a value is NaN. -/
def Value.isNan : Value → Bool
  | .nan => true
  | .fin _ => false

/-- The rational content of a finite value. -/
def Value.toRat : Value → Option ℚ
  | .nan => none
  | .fin x => some x

/-- Modelled from the spec: `batch_update(vs)` (§4.5: "if empty, no-op.
Else: update min_value, max_value, sum_value, total_weight exactly; append
singletons to the working set and invoke merging engine") with the
atomic-failure policy of §7 ("a failing batch_update leaves the digest
unchanged"): the inputs are validated before any state is touched.  The
result pairs the post-state with the error, if any. -/
def batchUpdate (d : TDigest) (vs : List Value) : TDigest × Option Err :=
  if vs.isEmpty then (d, none)
  else if vs.any Value.isNan then (d, some .DomainError)
  else
    match vs.filterMap Value.toRat with
    | [] => (d, none)
    | x :: rest =>
      let mn := rest.foldl Min.min x
      let mx := rest.foldl Max.max x
      let n : ℚ := ((x :: rest).length : ℚ)
      let d' : TDigest :=
        { centroids := compressPass d.max_centroids
            (sortCentroids (d.centroids ++ (x :: rest).map fun v => ⟨v, 1⟩)),
          min_value := if d.total_weight = 0 then mn else Min.min d.min_value mn,
          max_value := if d.total_weight = 0 then mx else Max.max d.max_value mx,
          sum_value := d.sum_value + (x :: rest).sum,
          total_weight := d.total_weight + n,
          max_centroids := d.max_centroids }
      (d', none)

/-- The budget of a merged digest: "the higher of the two instances'
max_centroids parameters; if at least one of them is None (no automatic
compression), it will be None" (stub docstring for `merge`). -/
def combineBudget : Option ℕ → Option ℕ → Option ℕ
  | none, _ => none
  | _, none => none
  | some a, some b => some (Max.max a b)

/-- A budget viewed in `WithTop ℕ`, where the unbounded budget is `⊤`
(spec §9: "None is treated as larger than any integer"). -/
def budgetTop : Option ℕ → WithTop ℕ
  | none => ⊤
  | some k => WithTop.some k

/-- Modelled from the spec: `merge(other)` (§4.5) — new budget by
`combineBudget`, union of the centroid lists, combined exact aggregates,
one pass under the new budget. -/
def merge (a b : TDigest) : TDigest :=
  let mc := combineBudget a.max_centroids b.max_centroids
  if a.total_weight = 0 then { b with max_centroids := mc }
  else if b.total_weight = 0 then { a with max_centroids := mc }
  else
    { centroids := compressPass mc (sortCentroids (a.centroids ++ b.centroids)),
      min_value := Min.min a.min_value b.min_value,
      max_value := Max.max a.max_value b.max_value,
      sum_value := a.sum_value + b.sum_value,
      total_weight := a.total_weight + b.total_weight,
      max_centroids := mc }

/-- The automatic budget of `merge_all`: the fold of `combineBudget` over
the source budgets, unbounded for an empty iterable (spec §4.5: "take the
maximum over all source budgets with unbounded dominating integers"; "or
unbounded if none supplied" when the iterable is empty). -/
def autoBudget : List (Option ℕ) → Option ℕ
  | [] => none
  | [b] => b
  | b :: rest => combineBudget b (autoBudget rest)

/-- Modelled from the spec: `merge_all(digests, max_centroids=None)` (§4.5,
stub `merge_all`).  The `max_centroids` parameter defaults to `None` in the
stub; `none` here covers both the omitted argument and an explicit `None`,
and selects the automatic budget. -/
def mergeAllBudget (ds : List TDigest) : Option ℕ → Option ℕ
  | some k => some k
  | none => autoBudget (ds.map (·.max_centroids))

/-- The single batched merging pass of `merge_all` (spec §4.5: "equivalent
to a repeated pairwise merge but performed as a single batched compression
pass over the concatenation of all centroid lists"). -/
def mergeAll (ds : List TDigest) (mc : Option ℕ) : TDigest :=
  match ds.filter (fun d => !(d.total_weight == 0)) with
  | [] => emptyDigest (mergeAllBudget ds mc)
  | d0 :: rest =>
    { centroids := compressPass (mergeAllBudget ds mc)
        (sortCentroids ((d0 :: rest).map (·.centroids)).flatten),
      min_value := rest.foldl (fun m d => Min.min m d.min_value) d0.min_value,
      max_value := rest.foldl (fun m d => Max.max m d.max_value) d0.max_value,
      sum_value := ((d0 :: rest).map (·.sum_value)).sum,
      total_weight := ((d0 :: rest).map (·.total_weight)).sum,
      max_centroids := mergeAllBudget ds mc }

/-! ## Construction defaults and serialization -/

/-- The default `max_centroids` of the constructors: `1000` (stub:
`max_centroids: Optional[int] = 1000`; notebook: `TDigest()` prints
`TDigest(max_centroids=1000)`). -/
def defaultMaxCentroids : Option ℕ :=
  some 1000

/-- Python default-argument resolution for the constructors' budget
argument: `none` is an omitted argument (resolving to the default 1000),
`some v` is an explicitly passed value, where `v = none` is Python's
`None`. -/
def resolveMaxCentroids : Option (Option ℕ) → Option ℕ
  | none => defaultMaxCentroids
  | some v => v

/-- `TDigest(max_centroids=...)`: an empty digest with the resolved
budget (stub `TDigest.__init__`). -/
def mkTDigest (arg : Option (Option ℕ)) : TDigest :=
  emptyDigest (resolveMaxCentroids arg)

/-- `TDigest.from_values(values, max_centroids=...)` at the facade level:
ingest the batch into a fresh digest with the resolved budget (stub
`TDigest.from_values`; the stub for `batch_update` notes it "is equivalent
to creating a temporary TDigest from the values and merging it"). -/
def fromValues (vs : List Value) (arg : Option (Option ℕ)) : TDigest :=
  (batchUpdate (mkTDigest arg) vs).1

/-- The dictionary representation: a `max_centroids` entry (an optional
positive integer, `none` for `null`) and the centroid list (spec §6
serialization format; notebook `to_dict` output). -/
structure TDigestDict where
  max_centroids : Option ℕ
  centroids : List Centroid
deriving DecidableEq, Repr

/-- `to_dict()`: the digest's budget and centroid list (notebook `to_dict`
output shows both keys). -/
def toDict (d : TDigest) : TDigestDict :=
  { max_centroids := d.max_centroids, centroids := d.centroids }

/-- Modelled from the spec: `from_dict` (§6) — "Input centroid list need
not be sorted; reconstruction must sort and validate c > 0.  On
reconstruction, min_value and max_value are taken as the smallest and
largest centroid means respectively; sum_value as Σ m·c; total_weight as
Σ c."  Non-positive weights give `MalformedInput` (§7). -/
def fromDict (t : TDigestDict) : Except Err TDigest :=
  if t.centroids.any (fun c => c.c ≤ 0) then .error .MalformedInput
  else
    match sortCentroids t.centroids with
    | [] => .ok (emptyDigest t.max_centroids)
    | c :: rest =>
      .ok { centroids := c :: rest,
            min_value := c.m,
            max_value := (rest.getLastD c).m,
            sum_value := ((c :: rest).map fun x => x.m * x.c).sum,
            total_weight := ((c :: rest).map (·.c)).sum,
            max_centroids := t.max_centroids }

/-- Digest equality (notebook "Magic methods": "returns True if both
instances have identical centroids (within f64 accuracy) and the same
max_centroids parameter"; spec §9 "Use strict IEEE equality"). -/
def digestEq (a b : TDigest) : Prop :=
  a.centroids = b.centroids ∧ a.max_centroids = b.max_centroids

/-- The values 0, 1, …, 100: the input of the concrete scenario
(notebook `from_values(range(101), max_centroids=3)`; spec §8
scenario 1). -/
def range101 : List ℚ :=
  (List.range 101).map fun n : ℕ => (n : ℚ)

/-- The digest of the concrete scenario, built by the §4.3 engine under the
always-permitting interior size bound (see `alwaysCombine`). -/
def digest101 : TDigest :=
  fromValuesWith alwaysCombine range101 (some 3)

/-- A small concrete digest: the result of ingesting the two values
0 and 10 into a fresh default digest. -/
def sampleTwo : TDigest :=
  { centroids := [⟨0, 1⟩, ⟨10, 1⟩], min_value := 0, max_value := 10,
    sum_value := 10, total_weight := 2, max_centroids := some 1000 }

/-! ## Theorems -/

theorem merge_max_centroids (a b : TDigest) :
    (merge a b).max_centroids = combineBudget a.max_centroids b.max_centroids := by
  unfold merge
  split_ifs <;> rfl

theorem budgetTop_combineBudget (a b : Option ℕ) :
    budgetTop (combineBudget a b) =
      Max.max (budgetTop a) (budgetTop b) := by
  match a, b with
  | none, b =>
    simp only [combineBudget, budgetTop]
    rw [max_eq_left le_top]
  | some x, none =>
    simp only [combineBudget, budgetTop]
    rw [max_eq_right le_top]
  | some x, some y =>
    simp only [combineBudget, budgetTop]
    rcases le_total x y with h | h
    · rw [max_eq_right h, max_eq_right (WithTop.coe_le_coe.mpr h)]
    · rw [max_eq_left h, max_eq_left (WithTop.coe_le_coe.mpr h)]

theorem combineBudget_eq_none (a b : Option ℕ) :
    combineBudget a b = none ↔ a = none ∨ b = none := by
  cases a <;> cases b <;> simp [combineBudget]

/-- C2: `merge(a, b)` gives the new digest the larger of the two budgets,
with the unbounded budget treated as larger than any integer; the result is
unbounded iff at least one input is. -/
theorem merge_budget (a b : TDigest) :
    budgetTop (merge a b).max_centroids =
      Max.max (budgetTop a.max_centroids) (budgetTop b.max_centroids) ∧
    ((merge a b).max_centroids = none ↔
      a.max_centroids = none ∨ b.max_centroids = none) := by
  rw [merge_max_centroids, budgetTop_combineBudget, combineBudget_eq_none]
  exact ⟨rfl, Iff.rfl⟩

/-- C3: `quantile(q)` fails with `DomainError` for `q ∉ [0,1]`, fails with
`EmptyDigest` on an empty digest, and on a non-empty digest returns exactly
`min_value` at `q = 0` and exactly `max_value` at `q = 1`. -/
theorem quantile_endpoints (d : TDigest) (q : ℚ) :
    ((q < 0 ∨ 1 < q) → quantile d q = .error .DomainError) ∧
    (0 ≤ q → q ≤ 1 → d.total_weight = 0 →
      quantile d q = .error .EmptyDigest) ∧
    (d.total_weight ≠ 0 →
      quantile d 0 = .ok d.min_value ∧ quantile d 1 = .ok d.max_value) := by
  refine ⟨?_, ?_, ?_⟩
  · intro h
    simp [quantile, h]
  · intro h0 h1 hw
    have hd : ¬(q < 0 ∨ 1 < q) := by
      rw [not_or, not_lt, not_lt]
      exact ⟨h0, h1⟩
    simp [quantile, hd, hw]
  · intro hw
    constructor
    · norm_num [quantile, hw]
    · norm_num [quantile, hw]

theorem quantile_endpoints_witness :
    quantile sampleTwo 2 = .error .DomainError ∧
    quantile (emptyDigest (some 1000)) (1/2) = .error .EmptyDigest ∧
    quantile sampleTwo 0 = .ok 0 ∧ quantile sampleTwo 1 = .ok 10 := by
  refine ⟨(quantile_endpoints sampleTwo 2).1 (by norm_num),
          (quantile_endpoints (emptyDigest (some 1000)) (1/2)).2.1
            (by norm_num) (by norm_num) rfl, ?_, ?_⟩
  · exact ((quantile_endpoints sampleTwo 0).2.2 (by norm_num [sampleTwo])).1
  · exact ((quantile_endpoints sampleTwo 1).2.2 (by norm_num [sampleTwo])).2

theorem chunkInto_length (b : ℕ) (cs : List Centroid) :
    (chunkInto b cs).length ≤ b := by
  induction b generalizing cs with
  | zero => simp [chunkInto]
  | succ b ih =>
    cases cs with
    | nil => simp [chunkInto]
    | cons c rest =>
      cases b with
      | zero => simp [chunkInto]
      | succ b' =>
        rw [chunkInto]
        · simpa using Nat.succ_le_succ (ih _)
        · simp

theorem compressPass_length (b : ℕ) (cs : List Centroid) :
    (compressPass (some b) cs).length ≤ b := by
  rw [compressPass]
  split
  · assumption
  · rw [List.length_map]
    exact chunkInto_length b cs

/-- C6: `compress(k)` runs one compression pass under the temporary budget
`max(k, min(total_weight, 3))`, so the centroid count afterwards is at most
that bound, and the digest's configured `max_centroids` is unchanged
(set-then-restored). -/
theorem compress_spec (d : TDigest) (k : ℤ) (h : 0 ≤ d.total_weight) :
    (compress d k).max_centroids = d.max_centroids ∧
    ((compress d k).centroids.length : ℤ) ≤
      Max.max k (Min.min (nValues d) 3) := by
  refine ⟨rfl, ?_⟩
  have hn : (0 : ℤ) ≤ nValues d := by
    rw [nValues, round_eq]
    exact Int.floor_nonneg.mpr (by linarith)
  have hb : (0 : ℤ) ≤ Max.max k (Min.min (nValues d) 3) :=
    le_max_of_le_right (le_min hn (by norm_num))
  calc ((compress d k).centroids.length : ℤ)
      ≤ ((Max.max k (Min.min (nValues d) 3)).toNat : ℤ) := by
        exact_mod_cast compressPass_length _ _
    _ = Max.max k (Min.min (nValues d) 3) := Int.toNat_of_nonneg hb

theorem compress_spec_witness :
    (compress sampleTwo 1).max_centroids = some 1000 ∧
    ((compress sampleTwo 1).centroids.length : ℤ) ≤
      Max.max 1 (Min.min (nValues sampleTwo) 3) := by
  exact compress_spec sampleTwo 1 (by norm_num [sampleTwo])

/-- C7: `batch_update([])` is a no-op returning the digest unchanged, and a
failing `batch_update` leaves the digest in exactly its prior state. -/
theorem batchUpdate_empty_atomic :
    (∀ d, batchUpdate d [] = (d, none)) ∧
    (∀ d vs e, (batchUpdate d vs).2 = some e → (batchUpdate d vs).1 = d) := by
  constructor
  · intro d
    rfl
  · intro d vs e h
    unfold batchUpdate at h ⊢
    by_cases h1 : vs.isEmpty
    · rw [if_pos h1]
    · rw [if_neg h1] at h ⊢
      by_cases h2 : vs.any Value.isNan
      · rw [if_pos h2]
      · rw [if_neg h2] at h ⊢
        rcases hm : List.filterMap Value.toRat vs with _ | ⟨x, rest⟩
        · rfl
        · rw [hm] at h
          simp at h

theorem batchUpdate_empty_atomic_witness :
    (batchUpdate (emptyDigest (some 1000)) [Value.nan]).2 =
      some Err.DomainError ∧
    (batchUpdate (emptyDigest (some 1000)) [Value.nan]).1 =
      emptyDigest (some 1000) := by
  exact ⟨rfl, batchUpdate_empty_atomic.2 (emptyDigest (some 1000))
    [Value.nan] Err.DomainError rfl⟩

theorem batchUpdate_max_centroids (d : TDigest) (vs : List Value) :
    (batchUpdate d vs).1.max_centroids = d.max_centroids := by
  unfold batchUpdate
  by_cases h1 : vs.isEmpty
  · rw [if_pos h1]
  · rw [if_neg h1]
    by_cases h2 : vs.any Value.isNan
    · rw [if_pos h2]
    · rw [if_neg h2]
      rcases hm : List.filterMap Value.toRat vs with _ | ⟨x, rest⟩ <;> rfl

/-- C9: a digest constructed without an explicit `max_centroids` argument
has the bounded default budget 1000; the unbounded budget arises only from
an explicit `None` argument. -/
theorem default_budget_bounded :
    (mkTDigest none).max_centroids = some 1000 ∧
    (∀ vs, (fromValues vs none).max_centroids = some 1000) ∧
    (∀ a, (mkTDigest a).max_centroids = none → a = some none) ∧
    (∀ vs a, (fromValues vs a).max_centroids = none → a = some none) := by
  have hfv : ∀ vs a, (fromValues vs a).max_centroids = resolveMaxCentroids a := by
    intro vs a
    rw [fromValues, batchUpdate_max_centroids]
    rfl
  have hres : ∀ a, resolveMaxCentroids a = none → a = some none := by
    intro a h
    match a with
    | none => simp [resolveMaxCentroids, defaultMaxCentroids] at h
    | some none => rfl
    | some (some k) => simp [resolveMaxCentroids] at h
  refine ⟨rfl, fun vs => hfv vs none, ?_, ?_⟩
  · intro a h
    exact hres a h
  · intro vs a h
    rw [hfv] at h
    exact hres a h

theorem default_budget_bounded_witness :
    (fromValues [Value.fin 1] none).max_centroids = some 1000 ∧
    (mkTDigest (some none)).max_centroids = none ∧
    (some none : Option (Option ℕ)) = some none := by
  exact ⟨default_budget_bounded.2.1 [Value.fin 1], rfl,
    default_budget_bounded.2.2.1 (some none) rfl⟩

theorem mergeAll_max_centroids (ds : List TDigest) (mc : Option ℕ) :
    (mergeAll ds mc).max_centroids = mergeAllBudget ds mc := by
  unfold mergeAll
  split <;> rfl

theorem mergeAll_budget_none (ds : List TDigest) :
    (mergeAll ds none).max_centroids =
      autoBudget (ds.map (·.max_centroids)) :=
  mergeAll_max_centroids ds none

theorem budgetTop_autoBudget (b : Option ℕ) (bs : List (Option ℕ)) :
    budgetTop (autoBudget (b :: bs)) =
      ((b :: bs).map budgetTop).foldr Max.max ⊥ := by
  induction bs generalizing b with
  | nil => simp [autoBudget]
  | cons b' bs ih =>
    have h1 : autoBudget (b :: b' :: bs) =
        combineBudget b (autoBudget (b' :: bs)) := rfl
    rw [h1, budgetTop_combineBudget, ih]
    simp

theorem autoBudget_ne_none (bs : List (Option ℕ)) (h : bs ≠ [])
    (hb : ∀ b ∈ bs, b ≠ none) : autoBudget bs ≠ none := by
  induction bs with
  | nil => exact absurd rfl h
  | cons b rest ih =>
    match rest with
    | [] => exact hb b (by simp)
    | b' :: rest' =>
      have h1 : autoBudget (b :: b' :: rest') =
          combineBudget b (autoBudget (b' :: rest')) := rfl
      rw [h1, Ne, combineBudget_eq_none, not_or]
      exact ⟨hb b (by simp), ih (by simp) (fun x hx => hb x (by simp [hx]))⟩

/-- C10: `merge_all`'s `max_centroids` parameter defaults to `None`, which
selects the automatic budget — the maximum of the inputs' budgets with the
unbounded budget dominating — so a caller passing `None` explicitly (the
same argument value as omitting it) cannot force an unbounded result from
bounded inputs. -/
theorem mergeAll_none_auto :
    (∀ ds, (mergeAll ds none).max_centroids =
      autoBudget (ds.map (·.max_centroids))) ∧
    (∀ b bs, budgetTop (autoBudget (b :: bs)) =
      ((b :: bs).map budgetTop).foldr Max.max ⊥) ∧
    (∀ ds, ds ≠ [] → (∀ d ∈ ds, d.max_centroids ≠ none) →
      (mergeAll ds none).max_centroids ≠ none) := by
  refine ⟨mergeAll_budget_none, budgetTop_autoBudget, ?_⟩
  intro ds hne hb
  rw [mergeAll_budget_none]
  exact autoBudget_ne_none _ (by simpa using hne)
    (by simpa using fun d hd => hb d hd)

theorem mergeAll_none_auto_witness :
    [sampleTwo] ≠ ([] : List TDigest) ∧
    (mergeAll [sampleTwo] none).max_centroids ≠ none := by
  refine ⟨by simp, mergeAll_none_auto.2.2 [sampleTwo] (by simp) ?_⟩
  intro d hd
  rw [List.mem_singleton] at hd
  subst hd
  simp [sampleTwo]

theorem cdf_ok (d : TDigest) (x : ℚ) (hw : d.total_weight ≠ 0) :
    cdf d x = .ok (cdfVal d x) := by
  rw [cdf, if_neg hw]

/-- C5: on every non-empty digest, `probability(x1, x2)` is exactly
`cdf(x2) − cdf(x1)`, with no ordering requirement on the arguments — in
particular the result is negative on a concrete digest when `x2 < x1`. -/
theorem probability_cdf_diff :
    (∀ d x1 x2, d.total_weight ≠ 0 →
      ∃ c1 c2, cdf d x1 = .ok c1 ∧ cdf d x2 = .ok c2 ∧
        probability d x1 x2 = .ok (c2 - c1)) ∧
    (∃ r, probability sampleTwo 5 2 = .ok r ∧ r < 0) := by
  constructor
  · intro d x1 x2 hw
    refine ⟨cdfVal d x1, cdfVal d x2, cdf_ok d x1 hw, cdf_ok d x2 hw, ?_⟩
    rw [probability, cdf_ok d x2 hw, cdf_ok d x1 hw]
    rfl
  · refine ⟨cdfVal sampleTwo 2 - cdfVal sampleTwo 5, ?_, ?_⟩
    · rw [probability, cdf_ok sampleTwo 2 (by norm_num [sampleTwo]),
        cdf_ok sampleTwo 5 (by norm_num [sampleTwo])]
      rfl
    · norm_num [cdfVal, sampleTwo, midList, cdfScan, qInterp]

theorem probability_cdf_diff_witness :
    sampleTwo.total_weight ≠ 0 ∧
    ∃ c1 c2, cdf sampleTwo 1 = .ok c1 ∧ cdf sampleTwo 3 = .ok c2 ∧
      probability sampleTwo 1 3 = .ok (c2 - c1) :=
  ⟨by norm_num [sampleTwo],
    probability_cdf_diff.1 sampleTwo 1 3 (by norm_num [sampleTwo])⟩

theorem quantile_ok (d : TDigest) (q : ℚ) (hw : d.total_weight ≠ 0)
    (h0 : 0 < q) (h1 : q < 1) :
    quantile d q = .ok (quantileVal d q) := by
  rw [quantile,
    if_neg (by push_neg; exact ⟨le_of_lt h0, le_of_lt h1⟩),
    if_neg hw, if_neg (ne_of_gt h0), if_neg (ne_of_lt h1)]

/-- C8: `iqr` takes only the digest and returns
`quantile(0.75) − quantile(0.25)` (the executed notebook calls `iqr()` with
no arguments; the stub's two-parameter signature contradicts its own
docstring and that executed call). -/
theorem iqr_spec (d : TDigest) (hw : d.total_weight ≠ 0) :
    ∃ a b, quantile d (3/4) = .ok a ∧ quantile d (1/4) = .ok b ∧
      iqr d = .ok (a - b) := by
  refine ⟨quantileVal d (3/4), quantileVal d (1/4),
    quantile_ok d (3/4) hw (by norm_num) (by norm_num),
    quantile_ok d (1/4) hw (by norm_num) (by norm_num), ?_⟩
  rw [iqr, quantile_ok d (3/4) hw (by norm_num) (by norm_num),
    quantile_ok d (1/4) hw (by norm_num) (by norm_num)]
  rfl

theorem iqr_spec_witness :
    sampleTwo.total_weight ≠ 0 ∧
    ∃ a b, quantile sampleTwo (3/4) = .ok a ∧
      quantile sampleTwo (1/4) = .ok b ∧ iqr sampleTwo = .ok (a - b) :=
  ⟨by norm_num [sampleTwo], iqr_spec sampleTwo (by norm_num [sampleTwo])⟩

/-- C4: `from_dict(d.to_dict())` reconstructs a digest equal to `d`, where
equality compares the centroid lists element-wise exactly and the
`max_centroids` settings (invariants of §3 assumed: sorted centroids with
positive weights). -/
theorem fromDict_toDict_roundtrip (d : TDigest)
    (hs : d.centroids.Pairwise (fun a b => a.m ≤ b.m))
    (hp : ∀ c ∈ d.centroids, 0 < c.c) :
    ∃ d', fromDict (toDict d) = .ok d' ∧ digestEq d' d := by
  have hsort : sortCentroids (toDict d).centroids = d.centroids := by
    apply List.mergeSort_of_sorted
    exact hs.imp fun h => by simpa [centroidLE] using h
  have hcond : ¬(((toDict d).centroids.any fun c => decide (c.c ≤ 0)) = true) := by
    rw [List.any_eq_true]
    rintro ⟨c, hc, hdec⟩
    exact absurd (of_decide_eq_true hdec) (not_le.mpr (hp c hc))
  rw [fromDict, if_neg hcond, hsort]
  rcases hd : d.centroids with _ | ⟨c, rest⟩
  · refine ⟨_, rfl, ?_⟩
    unfold digestEq
    rw [hd]
    exact ⟨rfl, rfl⟩
  · refine ⟨_, rfl, ?_⟩
    unfold digestEq
    rw [hd]
    exact ⟨rfl, rfl⟩

theorem fromDict_toDict_roundtrip_witness :
    ∃ d', fromDict (toDict sampleTwo) = .ok d' ∧ digestEq d' sampleTwo := by
  apply fromDict_toDict_roundtrip sampleTwo
  · norm_num [sampleTwo, List.pairwise_cons]
  · intro c hc
    rcases (by simpa [sampleTwo] using hc : c = ⟨0, 1⟩ ∨ c = ⟨10, 1⟩) with
      h | h <;> subst h <;> norm_num

theorem scanGo_always (W : ℚ) (out : List Centroid) :
    ∀ (l : List Centroid) (e : ℚ) (p : Centroid),
      scanGo alwaysCombine W out e p l = (l.foldl absorb p :: out).reverse := by
  intro l
  induction l with
  | nil => intro e p; rfl
  | cons n rest ih =>
    intro e p
    have hcond : alwaysCombine (e / W) ((e + p.c + n.c) / W) = true := rfl
    rw [scanGo, if_pos hcond]
    exact ih e (absorb p n)

theorem absorb_c (p n : Centroid) : (absorb p n).c = p.c + n.c :=
  rfl

theorem absorb_mass (p n : Centroid) (h : p.c + n.c ≠ 0) :
    (absorb p n).m * (absorb p n).c = p.m * p.c + n.m * n.c := by
  show (p.m + n.c / (p.c + n.c) * (n.m - p.m)) * (p.c + n.c) = _
  field_simp
  ring

theorem foldl_absorb :
    ∀ (l : List Centroid) (p : Centroid), 0 < p.c → (∀ x ∈ l, 0 < x.c) →
      0 < (l.foldl absorb p).c ∧
      (l.foldl absorb p).c = p.c + (l.map (·.c)).sum ∧
      (l.foldl absorb p).m * (l.foldl absorb p).c =
        p.m * p.c + (l.map fun x => x.m * x.c).sum
  | [], p, hp, _ => ⟨hp, by simp, by simp⟩
  | n :: rest, p, hp, hl => by
    have hn : 0 < n.c := hl n (by simp)
    have hpn : 0 < (absorb p n).c := by
      rw [absorb_c]
      linarith
    have key := foldl_absorb rest (absorb p n) hpn
      (fun x hx => hl x (by simp [hx]))
    refine ⟨key.1, ?_, ?_⟩
    · rw [List.foldl_cons, key.2.1, absorb_c, List.map_cons, List.sum_cons]
      ring
    · rw [List.foldl_cons, key.2.2, absorb_mass p n (by linarith),
        List.map_cons, List.sum_cons]
      ring

theorem sum_range_cast :
    ∀ (n s : ℕ), ((List.range' s n).map fun k => ((k : ℕ) : ℚ)).sum =
      (n : ℚ) * s + n * ((n : ℚ) - 1) / 2
  | 0, s => by simp
  | n + 1, s => by
    rw [List.range'_succ, List.map_cons, List.sum_cons, sum_range_cast n (s + 1)]
    push_cast
    ring

theorem foldl_min_eq :
    ∀ (l : List ℚ) (v : ℚ), (∀ x ∈ l, v ≤ x) → l.foldl Min.min v = v
  | [], _, _ => rfl
  | x :: xs, v, h => by
    rw [List.foldl_cons, min_eq_left (h x (by simp))]
    exact foldl_min_eq xs v fun y hy => h y (by simp [hy])

theorem le_foldl_max :
    ∀ (l : List ℚ) (v x : ℚ), (x ≤ v ∨ x ∈ l) → x ≤ l.foldl Max.max v
  | [], _, _, h => by
    rcases h with h | h
    · exact h
    · exact absurd h (List.not_mem_nil _)
  | y :: ys, v, x, h => by
    apply le_foldl_max ys (Max.max v y) x
    rcases h with h | h
    · exact Or.inl (le_trans h (le_max_left v y))
    · rcases List.mem_cons.mp h with h | h
      · exact Or.inl (h ▸ le_max_right v y)
      · exact Or.inr h

theorem foldl_max_le :
    ∀ (l : List ℚ) (v M : ℚ), v ≤ M → (∀ x ∈ l, x ≤ M) →
      l.foldl Max.max v ≤ M
  | [], _, _, hv, _ => hv
  | y :: ys, v, M, hv, h => by
    apply foldl_max_le ys (Max.max v y) M
    · exact max_le hv (h y (by simp))
    · exact fun x hx => h x (by simp [hx])

theorem range101_decomp :
    range101 =
      (0 : ℚ) :: (List.range' 1 100).map fun k => ((k : ℕ) : ℚ) := by
  rw [range101, List.range_eq_range',
    show (101 : ℕ) = 100 + 1 from rfl, List.range'_succ, List.map_cons]
  norm_num

theorem range'_1_100_concat :
    List.range' 1 100 = List.range' 1 99 ++ [100] := by
  rw [show (100 : ℕ) = 99 + 1 from rfl, List.range'_concat]

theorem range'_1_99_cons :
    List.range' 1 99 = 1 :: List.range' 2 98 := by
  rw [show (99 : ℕ) = 98 + 1 from rfl, List.range'_succ]

theorem map_singleton_weights :
    ∀ (l : List ℕ),
      ((l.map fun k => (⟨((k : ℕ) : ℚ), 1⟩ : Centroid)).map (·.c)).sum =
        (l.length : ℚ)
  | [] => by simp
  | k :: ks => by
    rw [List.map_cons, List.map_cons, List.sum_cons,
      map_singleton_weights ks, List.length_cons]
    push_cast
    ring

theorem map_singleton_mass :
    ∀ (l : List ℕ),
      ((l.map fun k => (⟨((k : ℕ) : ℚ), 1⟩ : Centroid)).map
          fun x => x.m * x.c).sum =
        (l.map fun k => ((k : ℕ) : ℚ)).sum
  | [] => by simp
  | k :: ks => by
    rw [List.map_cons, List.map_cons, List.sum_cons, map_singleton_mass ks,
      List.map_cons, List.sum_cons]
    ring

theorem range101_tail_min :
    ((List.range' 1 100).map fun k => ((k : ℕ) : ℚ)).foldl Min.min 0 = 0 := by
  apply foldl_min_eq
  intro x hx
  rcases List.mem_map.mp hx with ⟨k, _, rfl⟩
  positivity

theorem range101_tail_max :
    ((List.range' 1 100).map fun k => ((k : ℕ) : ℚ)).foldl Max.max 0 = 100 := by
  apply le_antisymm
  · apply foldl_max_le
    · norm_num
    · intro x hx
      rcases List.mem_map.mp hx with ⟨k, hk, rfl⟩
      rcases List.mem_range'.mp hk with ⟨i, hi, rfl⟩
      have hi' : (i : ℚ) ≤ 99 := by
        exact_mod_cast Nat.lt_succ_iff.mp (by simpa using hi)
      push_cast
      linarith
  · apply le_foldl_max
    right
    refine List.mem_map.mpr ⟨100, List.mem_range'.mpr ⟨99, by norm_num, by norm_num⟩, rfl⟩

theorem fold_mid_99 :
    ((List.range' 2 98).map
        fun k => (⟨((k : ℕ) : ℚ), 1⟩ : Centroid)).foldl absorb ⟨1, 1⟩ =
      ⟨50, 99⟩ := by
  set l := (List.range' 2 98).map fun k => (⟨((k : ℕ) : ℚ), 1⟩ : Centroid) with hl
  have hpos : ∀ x ∈ l, 0 < x.c := by
    intro x hx
    rcases List.mem_map.mp hx with ⟨k, _, rfl⟩
    norm_num
  have key := foldl_absorb l ⟨1, 1⟩ (by norm_num) hpos
  have hc : (l.foldl absorb ⟨1, 1⟩).c = 99 := by
    rw [key.2.1, hl, map_singleton_weights, List.length_range']
    norm_num
  have hmass : (l.foldl absorb ⟨1, 1⟩).m * (l.foldl absorb ⟨1, 1⟩).c = 4950 := by
    rw [key.2.2, hl, map_singleton_mass, sum_range_cast]
    norm_num
  have hm : (l.foldl absorb ⟨1, 1⟩).m = 50 := by
    rw [hc] at hmass
    linarith
  have heta : l.foldl absorb ⟨1, 1⟩ =
      ⟨(l.foldl absorb ⟨1, 1⟩).m, (l.foldl absorb ⟨1, 1⟩).c⟩ := rfl
  rw [heta, hm, hc]

theorem mergeEngine_101 :
    mergeEngine alwaysCombine 0 100 101
      (((0 : ℚ) :: (List.range' 1 100).map fun k => ((k : ℕ) : ℚ)).map
        fun x => (⟨x, 1⟩ : Centroid)) =
      [⟨0, 1⟩, ⟨50, 99⟩, ⟨100, 1⟩] := by
  have hmap : (((0 : ℚ) :: (List.range' 1 100).map fun k => ((k : ℕ) : ℚ)).map
        fun x => (⟨x, 1⟩ : Centroid)) =
      (⟨0, 1⟩ : Centroid) ::
        (List.range' 1 100).map fun k => (⟨((k : ℕ) : ℚ), 1⟩ : Centroid) := by
    rw [List.map_cons, List.map_map]
    rfl
  have h100 : (List.range' 1 100).map
        (fun k => (⟨((k : ℕ) : ℚ), 1⟩ : Centroid)) =
      ((List.range' 1 99).map fun k => (⟨((k : ℕ) : ℚ), 1⟩ : Centroid)) ++
        [⟨100, 1⟩] := by
    rw [range'_1_100_concat, List.map_append]
    norm_num
  have h99 : (List.range' 1 99).map
        (fun k => (⟨((k : ℕ) : ℚ), 1⟩ : Centroid)) =
      (⟨1, 1⟩ : Centroid) ::
        (List.range' 2 98).map fun k => (⟨((k : ℕ) : ℚ), 1⟩ : Centroid) := by
    rw [range'_1_99_cons, List.map_cons]
    norm_num
  have hs1 : splitHead 0
      ((⟨0, 1⟩ : Centroid) ::
        (List.range' 1 100).map fun k => (⟨((k : ℕ) : ℚ), 1⟩ : Centroid)) =
      ([⟨0, 1⟩],
        (List.range' 1 100).map fun k => (⟨((k : ℕ) : ℚ), 1⟩ : Centroid)) := by
    rw [splitHead, if_pos ⟨rfl, rfl⟩]
  have hs2 : splitLast 100
      ((List.range' 1 100).map fun k => (⟨((k : ℕ) : ℚ), 1⟩ : Centroid)) =
      ((List.range' 1 99).map fun k => (⟨((k : ℕ) : ℚ), 1⟩ : Centroid),
        [⟨100, 1⟩]) := by
    rw [splitLast, h100]
    simp [List.getLast?_concat, List.dropLast_concat]
  rw [hmap, mergeEngine]
  simp only [hs1, hs2]
  rw [h99, scanClusters, scanGo_always, fold_mid_99]
  simp

theorem digest101_eq :
    digest101 =
      { centroids := [⟨0, 1⟩, ⟨50, 99⟩, ⟨100, 1⟩],
        min_value := 0, max_value := 100, sum_value := 5050,
        total_weight := 101, max_centroids := some 3 } := by
  have hsorted : sortCentroids
      (((0 : ℚ) :: (List.range' 1 100).map fun k => ((k : ℕ) : ℚ)).map
        fun x => (⟨x, 1⟩ : Centroid)) =
      (((0 : ℚ) :: (List.range' 1 100).map fun k => ((k : ℕ) : ℚ)).map
        fun x => (⟨x, 1⟩ : Centroid)) := by
    apply List.mergeSort_of_sorted
    apply List.Pairwise.map
    · intro a b hab
      simpa [centroidLE] using hab
    · rw [← range101_decomp, range101]
      refine List.Pairwise.map (fun n : ℕ => (n : ℚ))
        (fun a b h => ?_) (List.sorted_le_range 101)
      change (a : ℚ) ≤ (b : ℚ)
      exact_mod_cast h
  have hlen : ((((0 : ℚ) :: (List.range' 1 100).map
      fun k => ((k : ℕ) : ℚ)).length : ℕ) : ℚ) = 101 := by
    simp
  rw [digest101, range101_decomp]
  simp only [fromValuesWith]
  rw [range101_tail_min, range101_tail_max, hsorted, hlen, mergeEngine_101,
    List.sum_cons, sum_range_cast]
  norm_num

/-- C1: `from_values` on the integers 0..100 with `max_centroids = 3`
yields exactly the centroids (0, 1), (50, 99), (100, 1) in order, and on
that digest `min()` is 0, `max()` is 100, `mean()` is 50 and `median()` is
(exactly) 50. -/
theorem fromValues_range101_scenario :
    digest101.centroids = [⟨0, 1⟩, ⟨50, 99⟩, ⟨100, 1⟩] ∧
    TDigest.min digest101 = .ok 0 ∧
    TDigest.max digest101 = .ok 100 ∧
    mean digest101 = .ok 50 ∧
    median digest101 = .ok 50 := by
  rw [digest101_eq]
  refine ⟨rfl, ?_, ?_, ?_, ?_⟩
  · rw [TDigest.min, if_neg (by norm_num)]
  · rw [TDigest.max, if_neg (by norm_num)]
  · rw [mean, if_neg (by norm_num)]
    norm_num
  · rw [median, quantile_ok _ _ (by norm_num) (by norm_num) (by norm_num)]
    norm_num [quantileVal, midList, quantileScan, qInterp]

end Fastdigest
